import Mathlib

/-!
Verification of the rustafari community-graph engine.

This file gives a shallow embedding of the core graph engine found in
src/graph.rs of the rustafari repository, together with theorems about the
spec-level properties of its operations.

Modelling choices:
* The Rust `HashMap<String, User>` backing `CommunityGraph.members` is
  embedded as an association list `List (String × User)`; the HashMap
  invariant that keys are unique is the well-formedness predicate
  `CommunityGraph.WF`.  Since the map iteration order of a `HashMap` is
  unspecified, the association-list order stands in for it; no theorem
  below depends on a particular iteration order.
* Fallible operations (`Result<T, AppError>` in the source) are embedded
  as `Except AppError` values; mutation is explicit state passing, so an
  operation that fails returns only the error and the caller keeps the
  unchanged store.
* `HashSet` intersection in `User::has_similar_interests` is embedded as
  dedup-then-filter, which produces each common interest exactly once
  (the concrete order of a `HashSet` is unspecified; only membership and
  cardinality are relied upon).
* Rust `Vec::sort_by` with a descending key comparison is embedded as
  `List.mergeSort` with the corresponding ≤ test (both are stable sorts).
-/

/-- Embeds `enum ConnectionType` from src/graph.rs. -/
inductive ConnectionType where
  | Mentor
  | Collaborator
  | Follower
  | ProjectBuddy
  deriving DecidableEq, Repr, Inhabited

/-- Embeds `struct Connection` from src/graph.rs. -/
structure Connection where
  to_username : String
  kind : ConnectionType
  since : String
  tags : List String
  deriving DecidableEq, Repr, Inhabited

/-- Embeds `struct User` from src/graph.rs. -/
structure User where
  username : String
  bio : Option String
  interests : List String
  connections : List Connection
  deriving DecidableEq, Repr, Inhabited

/-- Embeds `enum AppError` from src/errors.rs. -/
inductive AppError where
  | UserNotFound (username : String)
  | UserAlreadyExists (username : String)
  | ConnectionFailed (msg : String)
  | InternalError (msg : String)
  deriving DecidableEq, Repr

/-- Embeds `User::new`: a fresh user starts with an empty connection list. -/
def User.new (username : String) (bio : Option String) (interests : List String) : User :=
  { username := username, bio := bio, interests := interests, connections := [] }

/-- Embeds `User::add_connection`: `Vec::push` appends at the end. -/
def User.add_connection (u : User) (connection : Connection) : User :=
  { u with connections := u.connections ++ [connection] }

/-- Embeds `User::has_similar_interests`: the `HashSet` intersection of the
two interest sequences, each common interest occurring exactly once. -/
def User.has_similar_interests (u other : User) : List String :=
  u.interests.dedup.filter (fun s => decide (s ∈ other.interests))

/-- Embeds `struct RecommendedConnection` from src/graph.rs. -/
structure RecommendedConnection where
  username : String
  shared_interests : List String
  connection_type : ConnectionType
  deriving DecidableEq, Repr, Inhabited

/-- Embeds `struct CommunityGraph`: the `HashMap<String, User>` is an
association list, see the module docstring. -/
structure CommunityGraph where
  members : List (String × User)
  deriving DecidableEq, Repr

/-- Embeds `CommunityGraph::new` / `Default`: the empty store. -/
def CommunityGraph.new : CommunityGraph := { members := [] }

/-- `HashMap::get`: the record stored under a username, if any. -/
def CommunityGraph.lookup (g : CommunityGraph) (username : String) : Option User :=
  (g.members.find? (fun p => p.1 == username)).map Prod.snd

/-- `HashMap::contains_key`. -/
def CommunityGraph.contains_key (g : CommunityGraph) (username : String) : Bool :=
  (g.lookup username).isSome

/-- The invariant every `HashMap` state satisfies: keys are pairwise
distinct. -/
def CommunityGraph.WF (g : CommunityGraph) : Prop :=
  (g.members.map Prod.fst).Nodup

/-- Embeds `CommunityGraph::add_user`. -/
def CommunityGraph.add_user (g : CommunityGraph) (user : User) :
    Except AppError CommunityGraph :=
  if g.contains_key user.username then
    .error (.UserAlreadyExists user.username)
  else
    .ok { members := g.members ++ [(user.username, user)] }

/-- Embeds `CommunityGraph::connect_users`, including the defensive
`ConnectionFailed` branch taken when the mutable lookup of `from_` fails
after the two existence checks. -/
def CommunityGraph.connect_users (g : CommunityGraph) (from_ to_ : String)
    (kind : ConnectionType) (tags : List String) (since : String) :
    Except AppError CommunityGraph :=
  if !g.contains_key from_ then
    .error (.UserNotFound from_)
  else if !g.contains_key to_ then
    .error (.UserNotFound to_)
  else
    let connection : Connection :=
      { to_username := to_, kind := kind, since := since, tags := tags }
    match g.lookup from_ with
    | some _ =>
        .ok { members :=
          g.members.map (fun p =>
            if p.1 == from_ then (p.1, p.2.add_connection connection) else p) }
    | none =>
        .error (.ConnectionFailed ("Failed to connect " ++ from_ ++ " to " ++ to_))

/-- Embeds `CommunityGraph::get_user`. -/
def CommunityGraph.get_user (g : CommunityGraph) (username : String) :
    Except AppError User :=
  match g.lookup username with
  | some user => .ok user
  | none => .error (.UserNotFound username)

/-- Embeds `CommunityGraph::find_users_by_interest`. -/
def CommunityGraph.find_users_by_interest (g : CommunityGraph) (interest : String) :
    List User :=
  (g.members.map Prod.snd).filter (fun user => user.interests.any (fun i => i == interest))

/-- Embeds the free function `recommend_connection_type` from src/graph.rs. -/
def recommend_connection_type (user other : User) : ConnectionType :=
  let shared_interests := user.has_similar_interests other
  if shared_interests.length > 3 then .ProjectBuddy
  else if other.connections.length > user.connections.length * 2 then .Mentor
  else if user.connections.length > other.connections.length * 2 then .Follower
  else .Collaborator

/-- The body of the `for (other_name, other_user) in self.members.iter()`
loop of `recommend_connections`: skip the subject and already-connected
users, skip candidates with no shared interest, otherwise emit a
recommendation record.  The Rust locals `connected_users` (the targets of
the subject's outgoing connections) and `shared_interests` are inlined. -/
def recommend_entry (user : User) (username : String) (p : String × User) :
    Option RecommendedConnection :=
  if p.1 == username ||
      (user.connections.map Connection.to_username).contains p.1 then none
  else
    if (user.has_similar_interests p.2).isEmpty then none
    else some { username := p.1,
                shared_interests := user.has_similar_interests p.2,
                connection_type := recommend_connection_type user p.2 }

/-- Embeds `CommunityGraph::recommend_connections`: run the loop body over
the store and sort by descending shared-interest count. -/
def CommunityGraph.recommend_connections (g : CommunityGraph) (username : String) :
    Except AppError (List RecommendedConnection) :=
  match g.get_user username with
  | .error e => .error e
  | .ok user =>
      .ok ((g.members.filterMap (recommend_entry user username)).mergeSort
        (fun a b => decide (b.shared_interests.length ≤ a.shared_interests.length)))

/-- A sequence of `add_user` calls, stopping at the first failure (the
transport layer issues one call per request; this folds a batch). -/
def CommunityGraph.add_all (g : CommunityGraph) (users : List User) :
    Except AppError CommunityGraph :=
  users.foldlM CommunityGraph.add_user g

/-- Spec-level count of shared interests: the cardinality of the set
intersection of the two interest sequences, each interest counted once
regardless of duplicate occurrences. -/
def sharedInterestCard (u other : User) : Nat :=
  (u.interests.toFinset ∩ other.interests.toFinset).card

/-- The length of `has_similar_interests` is exactly the spec-level
deduplicated shared-interest count. -/
theorem has_similar_interests_length (u other : User) :
    (u.has_similar_interests other).length = sharedInterestCard u other := by
  classical
  unfold User.has_similar_interests sharedInterestCard
  have hnd : (u.interests.dedup.filter (fun s => decide (s ∈ other.interests))).Nodup :=
    (List.nodup_dedup u.interests).filter _
  rw [← List.toFinset_card_of_nodup hnd, List.toFinset_filter]
  congr 1
  ext s
  simp [List.mem_dedup]

/-- `has_similar_interests` is non-empty exactly when the two interest
sequences have a common element. -/
theorem has_similar_interests_isEmpty_eq_false (u other : User) :
    (u.has_similar_interests other).isEmpty = false ↔
      ∃ s, s ∈ u.interests ∧ s ∈ other.interests := by
  unfold User.has_similar_interests
  rw [List.isEmpty_eq_false]
  constructor
  · intro h
    obtain ⟨s, hs⟩ := List.exists_mem_of_ne_nil _ h
    exact ⟨s, List.mem_dedup.mp (List.mem_filter.mp hs).1,
      of_decide_eq_true (List.mem_filter.mp hs).2⟩
  · rintro ⟨s, hs1, hs2⟩ hnil
    have hmem : s ∈ u.interests.dedup.filter (fun s => decide (s ∈ other.interests)) :=
      List.mem_filter.mpr ⟨List.mem_dedup.mpr hs1, decide_eq_true hs2⟩
    rw [hnil] at hmem
    exact (List.not_mem_nil s) hmem

/-- C2: the suggested ConnectionType is decided by the first matching branch,
in the order ProjectBuddy (deduplicated shared-interest count above 3),
Mentor (candidate has more than twice the subject's outgoing connections),
Follower (subject has more than twice the candidate's), else Collaborator;
in particular one shared interest with U.connections = 1 and
C.connections = 3 yields Mentor. -/
theorem recommend_connection_type_priority (U C : User) :
    (3 < sharedInterestCard U C →
      recommend_connection_type U C = ConnectionType.ProjectBuddy) ∧
    (sharedInterestCard U C ≤ 3 →
      2 * U.connections.length < C.connections.length →
      recommend_connection_type U C = ConnectionType.Mentor) ∧
    (sharedInterestCard U C ≤ 3 →
      C.connections.length ≤ 2 * U.connections.length →
      2 * C.connections.length < U.connections.length →
      recommend_connection_type U C = ConnectionType.Follower) ∧
    (sharedInterestCard U C ≤ 3 →
      C.connections.length ≤ 2 * U.connections.length →
      U.connections.length ≤ 2 * C.connections.length →
      recommend_connection_type U C = ConnectionType.Collaborator) ∧
    (sharedInterestCard U C = 1 → U.connections.length = 1 →
      C.connections.length = 3 →
      recommend_connection_type U C = ConnectionType.Mentor) := by
  have hl := has_similar_interests_length U C
  refine ⟨?_, ?_, ?_, ?_, ?_⟩
  · intro h1
    simp only [recommend_connection_type]
    rw [if_pos (by omega)]
  · intro h1 h2
    simp only [recommend_connection_type]
    rw [if_neg (by omega), if_pos (by omega)]
  · intro h1 h2 h3
    simp only [recommend_connection_type]
    rw [if_neg (by omega), if_neg (by omega), if_pos (by omega)]
  · intro h1 h2 h3
    simp only [recommend_connection_type]
    rw [if_neg (by omega), if_neg (by omega), if_neg (by omega)]
  · intro h1 h2 h3
    simp only [recommend_connection_type]
    rw [if_neg (by omega), if_pos (by omega)]

/-- A concrete edge used in the example stores below. -/
def connEx : Connection :=
  { to_username := "bob", kind := ConnectionType.Follower, since := "2020", tags := ["t"] }

/-- Example subject with one interest and one outgoing connection. -/
def uC2 : User :=
  { username := "u", bio := none, interests := ["a"], connections := [connEx] }

/-- Example candidate sharing one interest and holding three connections. -/
def cC2 : User :=
  { username := "c", bio := none, interests := ["a"],
    connections := [connEx, connEx, connEx] }

theorem recommend_connection_type_priority_witness :
    recommend_connection_type uC2 cC2 = ConnectionType.Mentor :=
  (recommend_connection_type_priority uC2 cC2).2.2.2.2
    (by decide) (by decide) (by decide)

/-- Example users and store for the witnesses below. -/
def aliceEx : User :=
  { username := "alice", bio := some "hi", interests := ["rust", "lean"],
    connections := [] }

def bobEx : User :=
  { username := "bob", bio := none, interests := ["rust"], connections := [] }

def gEx : CommunityGraph := { members := [("alice", aliceEx), ("bob", bobEx)] }

/-- C4: connect_users fails with UserNotFound naming `from_` whenever `from_`
is absent (regardless of `to_`), and with UserNotFound naming `to_` when
`from_` exists but `to_` is absent; in this pure embedding an error result
carries no new store, so the store is unchanged. -/
theorem connect_users_missing_user (g : CommunityGraph) (from_ to_ : String)
    (kind : ConnectionType) (tags : List String) (since : String) :
    (g.lookup from_ = none →
      g.connect_users from_ to_ kind tags since = .error (.UserNotFound from_)) ∧
    (g.lookup from_ ≠ none → g.lookup to_ = none →
      g.connect_users from_ to_ kind tags since = .error (.UserNotFound to_)) := by
  constructor
  · intro h
    unfold CommunityGraph.connect_users CommunityGraph.contains_key
    rw [h]
    simp
  · intro h1 h2
    unfold CommunityGraph.connect_users CommunityGraph.contains_key
    rw [h2]
    obtain ⟨u, hu⟩ := Option.ne_none_iff_exists.mp h1
    rw [← hu]
    simp

theorem connect_users_missing_user_witness :
    (gEx.connect_users "zed" "alice" ConnectionType.Mentor [] "2021" =
      .error (.UserNotFound "zed")) ∧
    (gEx.connect_users "alice" "zed" ConnectionType.Mentor [] "2021" =
      .error (.UserNotFound "zed")) :=
  ⟨(connect_users_missing_user gEx "zed" "alice" ConnectionType.Mentor [] "2021").1
      (by decide),
   (connect_users_missing_user gEx "alice" "zed" ConnectionType.Mentor [] "2021").2
      (by decide) (by decide)⟩

/-- C7: adding a user whose username is already a key fails with
UserAlreadyExists carrying that username; the error result carries no new
store, so the previously stored record is untouched. -/
theorem add_user_existing_conflict (g : CommunityGraph) (user old : User)
    (h : g.lookup user.username = some old) :
    g.add_user user = .error (.UserAlreadyExists user.username) := by
  unfold CommunityGraph.add_user CommunityGraph.contains_key
  rw [h]
  simp

theorem add_user_existing_conflict_witness :
    gEx.add_user aliceEx = .error (.UserAlreadyExists "alice") :=
  add_user_existing_conflict gEx aliceEx aliceEx (by decide)

/-- C9: the defensive ConnectionFailed branch of connect_users is
unreachable: no store state and no inputs produce a ConnectionFailed
error, because when both existence checks pass the second lookup of
`from_` succeeds. -/
theorem connect_users_never_connection_failed (g : CommunityGraph)
    (from_ to_ : String) (kind : ConnectionType) (tags : List String)
    (since msg : String) :
    g.connect_users from_ to_ kind tags since ≠ .error (.ConnectionFailed msg) := by
  unfold CommunityGraph.connect_users CommunityGraph.contains_key
  cases h : g.lookup from_ with
  | none => simp [h]
  | some u =>
      by_cases h2 : (g.lookup to_).isSome
      · simp [h2]
      · simp [h2]

theorem connect_users_never_connection_failed_witness :
    gEx.connect_users "alice" "bob" ConnectionType.Mentor [] "2021" ≠
      .error (.ConnectionFailed "Failed to connect alice to bob") :=
  connect_users_never_connection_failed gEx "alice" "bob"
    ConnectionType.Mentor [] "2021" "Failed to connect alice to bob"

/-- C8: find_users_by_interest returns exactly the stored users whose
interest sequence contains the queried interest, compared by exact string
equality; its result is a plain list, so no error is possible and an empty
result is simply the case where no user satisfies the right-hand side. -/
theorem find_users_by_interest_spec (g : CommunityGraph) (interest : String)
    (v : User) :
    v ∈ g.find_users_by_interest interest ↔
      v ∈ g.members.map Prod.snd ∧ interest ∈ v.interests := by
  unfold CommunityGraph.find_users_by_interest
  rw [List.mem_filter]
  constructor
  · rintro ⟨h1, h2⟩
    refine ⟨h1, ?_⟩
    obtain ⟨i, hi, he⟩ := List.any_eq_true.mp h2
    rw [← beq_iff_eq.mp he]
    exact hi
  · rintro ⟨h1, h2⟩
    exact ⟨h1, List.any_eq_true.mpr ⟨interest, h2, beq_iff_eq.mpr rfl⟩⟩

/-- A successful connect_users, described through `lookup`: the key set is
unchanged, `from_` now maps to its old record with the new edge appended,
and every other key maps to exactly what it mapped to before. -/
theorem connect_users_ok_lookup (g : CommunityGraph) (from_ to_ : String)
    (uf : User) (kind : ConnectionType) (tags : List String) (since : String)
    (hf : g.lookup from_ = some uf) (ht : g.lookup to_ ≠ none) :
    ∃ g2, g.connect_users from_ to_ kind tags since = .ok g2 ∧
      g2.members.map Prod.fst = g.members.map Prod.fst ∧
      g2.lookup from_ = some (uf.add_connection
        { to_username := to_, kind := kind, since := since, tags := tags }) ∧
      ∀ v, v ≠ from_ → g2.lookup v = g.lookup v := by
  classical
  set c : Connection :=
    { to_username := to_, kind := kind, since := since, tags := tags } with hc
  have hkey : ∀ p : String × User,
      ((if p.1 == from_ then (p.1, p.2.add_connection c) else p) : String × User).1
        = p.1 := by
    intro p
    by_cases hp : p.1 == from_ <;> simp [hp]
  have ht2 : (g.lookup to_).isSome = true := Option.isSome_iff_ne_none.mpr ht
  refine ⟨⟨g.members.map
      (fun p => if p.1 == from_ then (p.1, p.2.add_connection c) else p)⟩,
    ?_, ?_, ?_, ?_⟩
  · simp [CommunityGraph.connect_users, CommunityGraph.contains_key, hf, ht2]
  · show (g.members.map _).map Prod.fst = g.members.map Prod.fst
    rw [List.map_map]
    exact List.map_congr_left (fun p _ => hkey p)
  · show ((g.members.map _).find? (fun p => p.1 == from_)).map Prod.snd = _
    rw [List.find?_map]
    have hcomp : ((fun p : String × User => p.1 == from_) ∘
        (fun p : String × User =>
          if p.1 == from_ then (p.1, p.2.add_connection c) else p)) =
        (fun p : String × User => p.1 == from_) := by
      funext p
      simp only [Function.comp_apply, hkey p]
    rw [hcomp]
    unfold CommunityGraph.lookup at hf
    cases hfind : g.members.find? (fun p => p.1 == from_) with
    | none => rw [hfind] at hf; simp at hf
    | some pr =>
        rw [hfind] at hf
        have hpr : (pr.1 == from_) = true := by
          have h0 := List.find?_some hfind
          simpa using h0
        simp only [Option.map_some'] at hf ⊢
        have hf2 : pr.2 = uf := Option.some.inj hf
        simp [hpr, hf2]
  · intro v hv
    show ((g.members.map _).find? (fun p => p.1 == v)).map Prod.snd = _
    rw [List.find?_map]
    have hcomp : ((fun p : String × User => p.1 == v) ∘
        (fun p : String × User =>
          if p.1 == from_ then (p.1, p.2.add_connection c) else p)) =
        (fun p : String × User => p.1 == v) := by
      funext p
      simp only [Function.comp_apply, hkey p]
    rw [hcomp]
    show _ = (g.members.find? (fun p => p.1 == v)).map Prod.snd
    cases hfind : g.members.find? (fun p => p.1 == v) with
    | none => simp
    | some pr =>
        have hpr : (pr.1 == v) = true := by
          have h0 := List.find?_some hfind
          simpa using h0
        have hne : pr.1 ≠ from_ := by
          rw [show pr.1 = v from beq_iff_eq.mp hpr]
          exact hv
        simp [hne]

/-- C5: when both endpoints exist, connect_users succeeds; afterwards
`from_` maps to its previous record with exactly the one new entry
{to_username, kind, tags, since} appended at the end (all other fields of
the record untouched, since the record is the old one updated only in
`connections`), the key set is unchanged, and every other username maps to
exactly the record it mapped to before (in particular `to_`, when distinct
from `from_`, keeps its connection list). -/
theorem connect_users_success_frame (g : CommunityGraph) (from_ to_ : String)
    (uf ut : User) (kind : ConnectionType) (tags : List String) (since : String)
    (hf : g.lookup from_ = some uf) (ht : g.lookup to_ = some ut) :
    ∃ g2, g.connect_users from_ to_ kind tags since = .ok g2 ∧
      g2.members.map Prod.fst = g.members.map Prod.fst ∧
      g2.lookup from_ = some { uf with connections := uf.connections ++
        [{ to_username := to_, kind := kind, since := since, tags := tags }] } ∧
      ∀ v, v ≠ from_ → g2.lookup v = g.lookup v :=
  connect_users_ok_lookup g from_ to_ uf kind tags since hf (by simp [ht])

theorem connect_users_success_frame_witness :
    ∃ g2, gEx.connect_users "alice" "bob" ConnectionType.Collaborator ["t"] "2022"
        = .ok g2 ∧
      g2.members.map Prod.fst = gEx.members.map Prod.fst ∧
      g2.lookup "alice" = some { aliceEx with connections := aliceEx.connections ++
        [{ to_username := "bob", kind := ConnectionType.Collaborator,
           since := "2022", tags := ["t"] }] } ∧
      ∀ v, v ≠ "alice" → g2.lookup v = gEx.lookup v :=
  connect_users_success_frame gEx "alice" "bob" aliceEx bobEx
    ConnectionType.Collaborator ["t"] "2022" (by decide) (by decide)

/-- C10: self-connections are permitted: whenever u is present,
connect_users(u, u, ...) succeeds and u afterwards maps to its old record
with an edge whose to_username is u itself appended. -/
theorem connect_users_self (g : CommunityGraph) (u : String) (uu : User)
    (kind : ConnectionType) (tags : List String) (since : String)
    (h : g.lookup u = some uu) :
    ∃ g2, g.connect_users u u kind tags since = .ok g2 ∧
      g2.lookup u = some (uu.add_connection
        { to_username := u, kind := kind, since := since, tags := tags }) := by
  obtain ⟨g2, h1, h2, h3, h4⟩ :=
    connect_users_ok_lookup g u u uu kind tags since h (by simp [h])
  exact ⟨g2, h1, h3⟩

theorem connect_users_self_witness :
    ∃ g2, gEx.connect_users "alice" "alice" ConnectionType.Follower [] "2023"
        = .ok g2 ∧
      g2.lookup "alice" = some (aliceEx.add_connection
        { to_username := "alice", kind := ConnectionType.Follower,
          since := "2023", tags := [] }) :=
  connect_users_self gEx "alice" aliceEx ConnectionType.Follower [] "2023"
    (by decide)

/-- Inserting a fresh binding at the end of the association list, seen
through `lookup`. -/
theorem lookup_append_single (ms : List (String × User)) (k v : String) (w : User) :
    CommunityGraph.lookup ⟨ms ++ [(k, w)]⟩ v =
      (CommunityGraph.lookup ⟨ms⟩ v).or (if k == v then some w else none) := by
  unfold CommunityGraph.lookup
  rw [List.find?_append]
  cases hfind : ms.find? (fun p => p.1 == v) with
  | none =>
      by_cases hk : (k == v) = true <;> simp [List.find?, hk]
  | some pr => simp

/-- Folding `add_user` over users disjoint from the store: every call
succeeds, each new user is afterwards retrievable, and all other lookups
are untouched. -/
theorem add_all_ok (users : List User) :
    ∀ g0 : CommunityGraph,
      (users.map User.username).Nodup →
      (∀ u ∈ users, g0.lookup u.username = none) →
      ∃ g, g0.add_all users = .ok g ∧
        (∀ u ∈ users, g.lookup u.username = some u) ∧
        (∀ v, (∀ u ∈ users, u.username ≠ v) → g.lookup v = g0.lookup v) := by
  induction users with
  | nil =>
      intro g0 _ _
      exact ⟨g0, rfl, by simp, fun v _ => rfl⟩
  | cons u us ih =>
      intro g0 hnd hdisj
      have hu0 : g0.lookup u.username = none := hdisj u (List.mem_cons_self u us)
      have hcontains : g0.contains_key u.username = false := by
        unfold CommunityGraph.contains_key
        rw [hu0]
        rfl
      have hstep : g0.add_user u = .ok ⟨g0.members ++ [(u.username, u)]⟩ := by
        unfold CommunityGraph.add_user
        rw [hcontains]
        rfl
      set g1 : CommunityGraph := ⟨g0.members ++ [(u.username, u)]⟩ with hg1
      rw [List.map_cons] at hnd
      obtain ⟨hnotmem, hnd2⟩ := List.nodup_cons.mp hnd
      have hlook1 : ∀ v, g1.lookup v =
          (g0.lookup v).or (if u.username == v then some u else none) := by
        intro v
        exact lookup_append_single g0.members u.username v u
      have hdisj2 : ∀ w ∈ us, g1.lookup w.username = none := by
        intro w hw
        rw [hlook1 w.username, hdisj w (List.mem_cons_of_mem u hw)]
        have hne : (u.username == w.username) = false := by
          rw [beq_eq_false_iff_ne]
          intro hcontra
          exact hnotmem (List.mem_map.mpr ⟨w, hw, hcontra.symm⟩)
        rw [hne]
        rfl
      obtain ⟨g, hok, hget, hframe⟩ := ih g1 hnd2 hdisj2
      have hfold : g0.add_all (u :: us) = g1.add_all us := by
        unfold CommunityGraph.add_all
        rw [List.foldlM_cons, hstep]
        rfl
      refine ⟨g, by rw [hfold]; exact hok, ?_, ?_⟩
      · intro w hw
        rcases List.mem_cons.mp hw with heq | hmem
        · subst heq
          have hne : ∀ w2 ∈ us, w2.username ≠ w.username := by
            intro w2 hw2 hcontra
            exact hnotmem (List.mem_map.mpr ⟨w2, hw2, hcontra⟩)
          rw [hframe w.username hne, hlook1 w.username,
            hdisj w (List.mem_cons_self w us)]
          simp
        · exact hget w hmem
      · intro v hv
        have hne : ∀ w2 ∈ us, w2.username ≠ v := by
          intro w2 hw2
          exact hv w2 (List.mem_cons_of_mem u hw2)
        rw [hframe v hne, hlook1 v]
        have hne2 : (u.username == v) = false := by
          rw [beq_eq_false_iff_ne]
          exact hv u (List.mem_cons_self u us)
        rw [hne2]
        simp

/-- C6: every sequence of add_user calls with pairwise-distinct usernames,
run from the empty store, fully succeeds, and get_user afterwards returns
exactly each record that was stored. -/
theorem add_user_sequence_roundtrip (users : List User)
    (hnd : (users.map User.username).Nodup) :
    ∃ g, CommunityGraph.new.add_all users = .ok g ∧
      ∀ u ∈ users, g.get_user u.username = .ok u := by
  obtain ⟨g, h1, h2, _⟩ :=
    add_all_ok users CommunityGraph.new hnd (fun u _ => rfl)
  refine ⟨g, h1, fun u hu => ?_⟩
  unfold CommunityGraph.get_user
  rw [h2 u hu]

theorem add_user_sequence_roundtrip_witness :
    ∃ g, CommunityGraph.new.add_all [aliceEx, bobEx] = .ok g ∧
      ∀ u ∈ [aliceEx, bobEx], g.get_user u.username = .ok u :=
  add_user_sequence_roundtrip [aliceEx, bobEx] (by decide)

/-- C3: every ok result of recommend_connections is sorted by non-increasing
shared-interest count: each entry's count is at least the next entry's. -/
theorem recommend_connections_sorted (g : CommunityGraph) (username : String)
    (l : List RecommendedConnection)
    (h : g.recommend_connections username = .ok l)
    (i : Nat) (hi : i + 1 < l.length) :
    l[i+1]!.shared_interests.length ≤ l[i]!.shared_interests.length := by
  have htrans : ∀ a b c : RecommendedConnection,
      (decide (b.shared_interests.length ≤ a.shared_interests.length)) = true →
      (decide (c.shared_interests.length ≤ b.shared_interests.length)) = true →
      (decide (c.shared_interests.length ≤ a.shared_interests.length)) = true := by
    intro a b c hab hbc
    simp only [decide_eq_true_eq] at hab hbc ⊢
    omega
  have htotal : ∀ a b : RecommendedConnection,
      ((decide (b.shared_interests.length ≤ a.shared_interests.length)) ||
       (decide (a.shared_interests.length ≤ b.shared_interests.length))) = true := by
    intro a b
    simp only [Bool.or_eq_true, decide_eq_true_eq]
    omega
  have hpair : l.Pairwise (fun a b =>
      (decide (b.shared_interests.length ≤ a.shared_interests.length)) = true) := by
    unfold CommunityGraph.recommend_connections at h
    cases hg : g.get_user username with
    | error e =>
        rw [hg] at h
        exact absurd h (by simp)
    | ok user =>
        rw [hg] at h
        have hl : l = (g.members.filterMap (recommend_entry user username)).mergeSort
            (fun a b =>
              decide (b.shared_interests.length ≤ a.shared_interests.length)) :=
          (Except.ok.inj h).symm
        rw [hl]
        exact List.sorted_mergeSort htrans htotal _
    
  have hadj := (List.pairwise_iff_get.mp hpair)
    ⟨i, by omega⟩ ⟨i + 1, hi⟩ (by simp)
  rw [getElem!_pos l (i + 1) hi, getElem!_pos l i (by omega)]
  exact of_decide_eq_true hadj

/-- A third example user, sharing two interests with alice. -/
def carolEx : User :=
  { username := "carol", bio := none, interests := ["rust", "lean"],
    connections := [] }

/-- Example store with three users for the recommendation witnesses. -/
def gRec : CommunityGraph :=
  { members := [("alice", aliceEx), ("bob", bobEx), ("carol", carolEx)] }

/-- The recommendation list the example store produces for alice. -/
def lRec : List RecommendedConnection :=
  [{ username := "carol", shared_interests := ["rust", "lean"],
     connection_type := ConnectionType.Collaborator },
   { username := "bob", shared_interests := ["rust"],
     connection_type := ConnectionType.Collaborator }]

theorem recommend_connections_sorted_witness :
    lRec[1]!.shared_interests.length ≤ lRec[0]!.shared_interests.length :=
  recommend_connections_sorted gRec "alice" lRec
    (by
      have h : gRec.recommend_connections "alice" =
          .ok ([{ username := "bob", shared_interests := ["rust"],
                  connection_type := ConnectionType.Collaborator },
                { username := "carol", shared_interests := ["rust", "lean"],
                  connection_type := ConnectionType.Collaborator }].mergeSort
            (fun a b =>
              decide (b.shared_interests.length ≤ a.shared_interests.length))) := rfl
      rw [h]
      simp [List.mergeSort, List.merge, lRec])
    0 (by decide)

/-- Characterization of the loop body: it emits a record exactly for a
candidate that is not the subject, not an existing connection target, and
shares at least one interest; the record is then fully determined. -/
theorem recommend_entry_eq_some (user : User) (username : String)
    (p : String × User) (r : RecommendedConnection) :
    recommend_entry user username p = some r ↔
      (p.1 ≠ username ∧
       (∀ c ∈ user.connections, c.to_username ≠ p.1) ∧
       (∃ s, s ∈ user.interests ∧ s ∈ p.2.interests) ∧
       r = { username := p.1,
             shared_interests := user.has_similar_interests p.2,
             connection_type := recommend_connection_type user p.2 }) := by
  unfold recommend_entry
  by_cases h1 : (p.1 == username ||
      (user.connections.map Connection.to_username).contains p.1) = true
  · rw [if_pos h1]
    constructor
    · intro h
      exact absurd h (by simp)
    · rintro ⟨hne, hconn, _, _⟩
      rcases Bool.or_eq_true_iff.mp h1 with hb | hb
      · exact absurd (beq_iff_eq.mp hb) hne
      · have hmem : p.1 ∈ user.connections.map Connection.to_username := by
          simpa using hb
        obtain ⟨c, hc, hcv⟩ := List.mem_map.mp hmem
        exact absurd hcv (fun h2 => hconn c hc h2)
  · rw [if_neg h1]
    have h1f : (p.1 == username ||
        (user.connections.map Connection.to_username).contains p.1) = false := by
      simpa using h1
    obtain ⟨hbeq, hcont⟩ := Bool.or_eq_false_iff.mp h1f
    have hnm : p.1 ∉ user.connections.map Connection.to_username := by
      simpa using hcont
    by_cases h2 : (user.has_similar_interests p.2).isEmpty = true
    · rw [if_pos h2]
      constructor
      · intro h
        exact absurd h (by simp)
      · rintro ⟨_, _, hs, _⟩
        have hfalse := (has_similar_interests_isEmpty_eq_false user p.2).mpr hs
        rw [h2] at hfalse
        exact absurd hfalse (by simp)
    · rw [if_neg h2]
      have h2f : (user.has_similar_interests p.2).isEmpty = false := by
        simpa using h2
      constructor
      · intro h
        refine ⟨beq_eq_false_iff_ne.mp hbeq, ?_, ?_, (Option.some.inj h).symm⟩
        · intro c hc hcv
          exact hnm (List.mem_map.mpr ⟨c, hc, hcv⟩)
        · exact (has_similar_interests_isEmpty_eq_false user p.2).mp h2f
      · rintro ⟨_, _, _, hr⟩
        rw [hr]

/-- C1: for a present username, the members of the returned recommendation
list are exactly the other stored users that are not targets of the
subject's outgoing connections and whose interest sequence meets the
subject's in at least one string (duplicates irrelevant, exact string
equality); for an absent username the call fails with UserNotFound. -/
theorem recommend_connections_membership (g : CommunityGraph) (hWF : g.WF)
    (username : String) :
    (g.lookup username = none →
      g.recommend_connections username = .error (.UserNotFound username)) ∧
    (∀ user, g.lookup username = some user →
      ∃ l, g.recommend_connections username = .ok l ∧
        (∀ r ∈ l, ∃ vu, (r.username, vu) ∈ g.members) ∧
        (∀ v vu, (v, vu) ∈ g.members →
          ((∃ r ∈ l, r.username = v) ↔
            (v ≠ username ∧
             (∀ c ∈ user.connections, c.to_username ≠ v) ∧
             (∃ s, s ∈ user.interests ∧ s ∈ vu.interests))))) := by
  constructor
  · intro h
    unfold CommunityGraph.recommend_connections CommunityGraph.get_user
    rw [h]
  · intro user huser
    unfold CommunityGraph.recommend_connections CommunityGraph.get_user
    rw [huser]
    refine ⟨_, rfl, ?_, ?_⟩
    · intro r hr
      rw [List.mem_mergeSort, List.mem_filterMap] at hr
      obtain ⟨p, hp, hfp⟩ := hr
      obtain ⟨hne, hconn, hs, hreq⟩ := (recommend_entry_eq_some user username p r).mp hfp
      refine ⟨p.2, ?_⟩
      rw [hreq]
      simpa using hp
    · intro v vu hvvu
      constructor
      · rintro ⟨r, hrl, hrv⟩
        rw [List.mem_mergeSort, List.mem_filterMap] at hrl
        obtain ⟨p, hp, hfp⟩ := hrl
        obtain ⟨hne, hconn, hs, hreq⟩ := (recommend_entry_eq_some user username p r).mp hfp
        have hp1 : p.1 = v := by rw [← hrv, hreq]
        have hWF2 : (g.members.map Prod.fst).Nodup := hWF
        have hpeq : p = (v, vu) :=
          List.inj_on_of_nodup_map hWF2 hp hvvu (by simpa using hp1)
        refine ⟨?_, ?_, ?_⟩
        · rw [← hp1]
          exact hne
        · intro c hc
          rw [← hp1]
          exact hconn c hc
        · have hp2 : p.2 = vu := by rw [hpeq]
          rw [← hp2]
          exact hs
      · rintro ⟨hne, hconn, hs⟩
        refine ⟨{ username := v,
                  shared_interests := user.has_similar_interests vu,
                  connection_type := recommend_connection_type user vu }, ?_, rfl⟩
        rw [List.mem_mergeSort, List.mem_filterMap]
        exact ⟨(v, vu), hvvu,
          (recommend_entry_eq_some user username (v, vu) _).mpr
            ⟨hne, fun c hc => hconn c hc, hs, rfl⟩⟩

theorem recommend_connections_membership_witness :
    ∃ l, gRec.recommend_connections "alice" = .ok l ∧
      (∀ r ∈ l, ∃ vu, (r.username, vu) ∈ gRec.members) ∧
      (∀ v vu, (v, vu) ∈ gRec.members →
        ((∃ r ∈ l, r.username = v) ↔
          (v ≠ "alice" ∧
           (∀ c ∈ aliceEx.connections, c.to_username ≠ v) ∧
           (∃ s, s ∈ aliceEx.interests ∧ s ∈ vu.interests)))) :=
  (recommend_connections_membership gRec
      (by show (gRec.members.map Prod.fst).Nodup; decide) "alice").2
    aliceEx (by decide)
